import Mathlib

/-!
Verification of the dense RGB-D visual-odometry tracker
(src/ludicrous_project/code/src/tracker.hpp) against its natural-language
specification.  The host-side control flow of the tracker (pyramid loop,
inner Gauss-Newton iterations, variance loop, pose accumulation, device
allocation calls) is embedded as executable Lean functions over exact
rationals.  Device kernels and the Lie-algebra helpers live in headers that
are not part of the provided sources; those parts are modelled from the
specification and are marked as such in their doc comments.
-/

set_option maxRecDepth 10000

namespace DVO

/-- Twist coordinates and other six-component vectors, as functions from
Fin 6 to the rationals (Eigen Vector6f with exact arithmetic). -/
abbrev Vec6 := Fin 6 → ℚ

/-- Six-by-six matrices (Eigen Matrix6f with exact arithmetic). -/
abbrev Mat6 := Fin 6 → Fin 6 → ℚ

/-- Three-component vectors (translations, homogeneous pixel coordinates). -/
abbrev Vec3 := Fin 3 → ℚ

/-- Three-by-three matrices (intrinsics K, rotations R). -/
abbrev Mat3 := Fin 3 → Fin 3 → ℚ

/-- Zero 6-vector, mirroring Vector6f::Zero(). -/
def zeroV6 : Vec6 := fun _ => 0

/-- Zero 6x6 matrix, mirroring Matrix6f::Zero(). -/
def zeroM6 : Mat6 := fun _ _ => 0

/-- Componentwise negation of a 6-vector (Eigen unary minus). -/
def negV6 (v : Vec6) : Vec6 := fun i => - v i

/-- Componentwise addition of 6-vectors. -/
def addV6 (a b : Vec6) : Vec6 := fun i => a i + b i

/-- List sum over the rationals. -/
def qsum (l : List ℚ) : ℚ := l.foldr (fun a b => a + b) 0

/-- Sum of a rational-valued function over the indices 0, ..., n-1. -/
def sumRange (n : ℕ) (f : ℕ → ℚ) : ℚ := qsum ((List.range n).map f)

/-- Sum of a rational-valued function over all six indices. -/
def sumFin6 (f : Fin 6 → ℚ) : ℚ := f 0 + f 1 + f 2 + f 3 + f 4 + f 5

/-- Matrix-vector product for 6x6 systems. -/
def mulVec6 (A : Mat6) (x : Vec6) : Vec6 := fun i => sumFin6 (fun j => A i j * x j)

/-- Columns 0..n-1 of the unit lower-triangular LDLT factor of A together
with the corresponding diagonal entries of D.  Column j is a total function
on row indices: 0 above the diagonal, 1 on it, and
(A i j - sum over k < j of L i k * L j k * d k) / d j below it. -/
def ldltCols (A : ℕ → ℕ → ℚ) : ℕ → List ((ℕ → ℚ) × ℚ)
  | 0 => []
  | n+1 =>
      let prev := ldltCols A n
      let dn : ℚ := A n n - qsum (prev.map (fun cd => cd.1 n * cd.1 n * cd.2))
      let coln : ℕ → ℚ := fun i =>
        if i < n then 0
        else if i = n then 1
        else (A i n - qsum (prev.map (fun cd => cd.1 i * cd.1 n * cd.2))) / dn
      prev ++ [(coln, dn)]

/-- Forward substitution for a unit lower-triangular system L z = b,
producing the list of the first n solution components. -/
def forwardSub (L : ℕ → ℕ → ℚ) (b : ℕ → ℚ) : ℕ → List ℚ
  | 0 => []
  | n+1 =>
      let zs := forwardSub L b n
      zs ++ [ b n - qsum (zs.enum.map (fun kz => L n kz.1 * kz.2)) ]

/-- Back substitution for a unit upper-triangular system L^T x = y with N
unknowns, computed in reversed order: entry j of the returned list is the
solution component x (N-1-j). -/
def backSubRev (L : ℕ → ℕ → ℚ) (y : ℕ → ℚ) (N : ℕ) : ℕ → List ℚ
  | 0 => []
  | j+1 =>
      let us := backSubRev L y N j
      us ++ [ y (N-1-j) - qsum (us.enum.map (fun mu => L (N-1-mu.1) (N-1-j) * mu.2)) ]

/-- Truncation of a 6x6 matrix to a total function on natural indices. -/
def ldltMatN (A : Mat6) : ℕ → ℕ → ℚ := fun i j =>
  if hi : i < 6 then (if hj : j < 6 then A ⟨i, hi⟩ ⟨j, hj⟩ else 0) else 0

/-- Unit lower-triangular LDLT factor of A, as a function of (row, column). -/
def ldltL (A : Mat6) : ℕ → ℕ → ℚ := fun i k =>
  (((ldltCols (ldltMatN A) 6).getD k (fun _ => 0, 0)).1) i

/-- Diagonal factor D of the LDLT factorization of A. -/
def ldltD (A : Mat6) : ℕ → ℚ := fun k =>
  ((ldltCols (ldltMatN A) 6).getD k (fun _ => 0, 0)).2

/-- Truncation of a 6-vector to a total function on natural indices. -/
def vecN (b : Vec6) : ℕ → ℚ := fun i => if h : i < 6 then b ⟨i, h⟩ else 0

/-- Forward-substitution stage of the LDLT solve: z with L z = b. -/
def ldltZ (A : Mat6) (b : Vec6) : List ℚ := forwardSub (ldltL A) (vecN b) 6

/-- Diagonal stage of the LDLT solve: y = D^{-1} z with vanishing pivots
zeroed (Eigen's rank-deficient behavior). -/
def ldltY (A : Mat6) (b : Vec6) : ℕ → ℚ := fun i =>
  if ldltD A i = 0 then 0 else (ldltZ A b).getD i 0 / ldltD A i

/-- Back-substitution stage of the LDLT solve (reversed order). -/
def ldltX (A : Mat6) (b : Vec6) : List ℚ := backSubRev (ldltL A) (ldltY A b) 6 6

/-- Modelled from the spec: Eigen LDLT solve of the 6x6 system A x = b used
on the host (section 4.6). -/
def ldltSolve (A : Mat6) (b : Vec6) : Vec6 := fun i => (ldltX A b).getD (5 - i.val) 0

/-- Diagonal 6x6 matrix with the given diagonal. -/
def diagM6 (d : Vec6) : Mat6 := fun i j => if i = j then d i else 0

/-- Indicator column: 1 at index k, 0 elsewhere. -/
def indCol (k : ℕ) : ℕ → ℚ := fun i => if i = k then 1 else 0

/-- Solver selector, traced from the enum in tracker.hpp.  Only Gauss-Newton
is implemented; the constructor stores the selector and no other code reads
it. -/
inductive SolvingMethod
  | GAUSS_NEWTON
  | LEVENBERG_MARQUARDT
  | GRADIENT_DESCENT
deriving DecidableEq

/-- Device call events issued by the host code (cudaMalloc with a byte
count, cudaFree). -/
inductive DevEvent
  | malloc (bytes : ℕ)
  | free
deriving DecidableEq

/-- Recognizer for allocation events. -/
def DevEvent.isMalloc : DevEvent → Bool
  | DevEvent.malloc _ => true
  | DevEvent.free => false

/-- Recognizer for deallocation events. -/
def DevEvent.isFree : DevEvent → Bool
  | DevEvent.malloc _ => false
  | DevEvent.free => true

/-- Construction-time configuration of the tracker, traced from the
constructor parameters of tracker.hpp.  The cublas flag models the
compile-time ENABLE_CUBLAS switch selecting between the cuBLAS and the
hand-rolled reduction paths. -/
structure Config where
  width : ℕ
  height : ℕ
  K : Mat3
  minLevel : ℕ
  maxLevel : ℕ
  useTDistWeights : Bool
  maxIterationsPerLevel : ℕ
  solvingMethod : SolvingMethod
  cublas : Bool

/-- BIG_FLOAT in tracker.hpp is std::numeric_limits<float>::max(), whose
exact value is (2^24 - 1) * 2^104; the per-level error_prev starts here. -/
def BIG_FLOAT : ℚ := (2^24 - 1) * 2^104

/-- VARIANCE_INITIAL = 0.000625f in tracker.hpp (the value sigma0^2 of the
spec); the per-level variance state starts here. -/
def VARIANCE_INITIAL : ℚ := 1/1600

/-- Modelled from the spec: the Lie-algebra helpers lieExp, lieLog and
convertSE3ToT live in lieAlgebra.hpp, which is not among the provided
sources.  They are abstracted as an exp/log pair into a group-like carrier
G with the laws the spec states in sections 4.6 and 8.4: exp of the zero
twist is the identity, the identity is a left unit, and log inverts exp. -/
structure LieModel (G : Type) where
  mul : G → G → G
  one : G
  inv : G → G
  lieExp : Vec6 → G
  lieLog : G → Vec6
  convertSE3ToT : Vec6 → Mat3 × Vec3
  one_mul : ∀ g, mul one g = g
  lieExp_zero : lieExp zeroV6 = one
  lieLog_exp : ∀ v, lieLog (lieExp v) = v

/-- Concrete Lie model for the translation-only subgroup of SE(3), on which
exp and log are the identity and composition is addition of twists.  Used
to instantiate theorems at concrete inputs. -/
def transModel : LieModel Vec6 where
  mul := addV6
  one := zeroV6
  inv := negV6
  lieExp := id
  lieLog := id
  convertSE3ToT := fun v =>
    (fun i j => if i = j then 1 else 0, fun k => v ⟨k.val + 3, by omega⟩)
  one_mul := by intro g; funext i; simp [addV6, zeroV6]
  lieExp_zero := rfl
  lieLog_exp := fun _ => rfl

/-- Per-iteration device results consumed by the host loop: the scalar
error e = sum of squared residuals, the assembled normal equations A and b,
the updated variance state, and the trace of device allocation calls issued
while computing them. -/
structure DevOut where
  err : ℚ
  A : Mat6
  b : Vec6
  var : ℚ
  trace : List DevEvent

/-- Host state threaded through the inner iterations of one pyramid level:
the pose estimate xi and the Student-t variance state. -/
structure IterState where
  xi : Vec6
  var : ℚ

/-- One inner Gauss-Newton iteration, traced from the body of the iteration
loop in Tracker::align: the kernels produce A and b (via dev), the host
solves A * delta_xi = b by LDLT, negates the solution
(xi_delta = -(A.ldlt().solve(b))) and updates
xi = lieLog(lieExp(xi_delta) * lieExp(xi)). -/
def iterStep {G : Type} (L : LieModel G) (dev : Vec6 → ℚ → DevOut)
    (s : IterState) : IterState :=
  let o := dev s.xi s.var
  { xi := L.lieLog (L.mul (L.lieExp (negV6 (ldltSolve o.A o.b))) (L.lieExp s.xi)),
    var := o.var }

/-- State after k unconditional inner iterations. -/
def iterN {G : Type} (L : LieModel G) (dev : Vec6 → ℚ → DevOut) :
    ℕ → IterState → IterState
  | 0, s => s
  | k+1, s => iterN L dev k (iterStep L dev s)

/-- Error read back at the j-th inner iteration (sum of squared residuals
produced by the device for the state entering that iteration). -/
def errAt {G : Type} (L : LieModel G) (dev : Vec6 → ℚ → DevOut)
    (s : IterState) (j : ℕ) : ℚ :=
  (dev (iterN L dev j s).xi (iterN L dev j s).var).err

/-- Inner iteration loop of one pyramid level, traced from Tracker::align:
up to fuel iterations; each iteration updates the state first, then reads
back the error and breaks when error / error_prev > 0.995 or error == 0,
otherwise error_prev becomes error.  Returns the final state, the number of
iterations executed, and the device allocation trace. -/
def innerLoop {G : Type} (L : LieModel G) (dev : Vec6 → ℚ → DevOut) :
    ℕ → IterState → ℚ → IterState × ℕ × List DevEvent
  | 0, s, _ => (s, 0, [])
  | n+1, s, errPrev =>
      let o := dev s.xi s.var
      let s2 := iterStep L dev s
      if o.err / errPrev > 199/200 ∨ o.err = 0 then (s2, 1, o.trace)
      else
        let rest := innerLoop L dev n s2 o.err
        (rest.1, rest.2.1 + 1, o.trace ++ rest.2.2)

/-- Declarative iteration count of one level, written from the claim text
(with the amended initialization): terminate at the first iteration whose
error satisfies e / e_prev > 0.995 or e == 0, where e_prev starts at the
given value and otherwise becomes the previous error; run at most n
iterations. -/
def levelStopSpec (errs : ℕ → ℚ) (errPrev : ℚ) : ℕ → ℕ
  | 0 => 0
  | n+1 =>
      if errs 0 / errPrev > 199/200 ∨ errs 0 = 0 then 1
      else 1 + levelStopSpec (fun j => errs (j+1)) (errs 0) n

/-- Declarative iteration count written literally from the claim, with
e_prev initialized to plus infinity (represented by none): a finite error
divided by infinity is 0, so on the first iteration only e == 0 can
terminate the level. -/
def levelStopSpecInfty (errs : ℕ → ℚ) : Option ℚ → ℕ → ℕ
  | _, 0 => 0
  | Option.none, n+1 =>
      if errs 0 = 0 then 1
      else 1 + levelStopSpecInfty (fun j => errs (j+1)) (Option.some (errs 0)) n
  | Option.some p, n+1 =>
      if errs 0 / p > 199/200 ∨ errs 0 = 0 then 1
      else 1 + levelStopSpecInfty (fun j => errs (j+1)) (Option.some (errs 0)) n

/-- Host/device rasters as total functions from pixel coordinates (u, v) to
float values, with exact rational arithmetic; only the prefix
[0, w) x [0, h) of the active level is ever read. -/
abbrev Image := ℕ → ℕ → ℚ

/-- All-zero raster (in particular the all-invalid depth image). -/
def zeroImage : Image := fun _ _ => 0

/-- Modelled from the spec: intensity downsampling of imresize_CUDA
(preprocessing.cuh, not in src): each output pixel is the average of its
2x2 input block (section 4.1). -/
def downsampleGray (I : Image) : Image := fun u v =>
  (I (2*u) (2*v) + I (2*u+1) (2*v) + I (2*u) (2*v+1) + I (2*u+1) (2*v+1)) / 4

/-- Modelled from the spec: validity-aware depth downsampling of
imresize_CUDA (section 4.1): average only the positive samples of the 2x2
block and produce zero when none are valid. -/
def downsampleDepth (D : Image) : Image := fun u v =>
  let s := [D (2*u) (2*v), D (2*u+1) (2*v), D (2*u) (2*v+1), D (2*u+1) (2*v+1)]
  let valid := s.filter (fun x => decide (0 < x))
  if valid.length = 0 then 0 else qsum valid / valid.length

/-- Gray pyramid: level l is the l-fold downsampling of the level-0 raster. -/
def pyrGray (g : Image) : ℕ → Image
  | 0 => g
  | l+1 => downsampleGray (pyrGray g l)

/-- Depth pyramid: level l is the l-fold validity-aware downsampling of the
level-0 raster. -/
def pyrDepth (d : Image) : ℕ → Image
  | 0 => d
  | l+1 => downsampleDepth (pyrDepth d l)

/-- Modelled from the spec: central-difference x-gradient with replicated
borders, computed per level by image_derivatives_CUDA (not in src). -/
def gradX (I : Image) (w : ℕ) : Image := fun u v =>
  (I (min (u+1) (w-1)) v - I (u-1) v) / 2

/-- Modelled from the spec: central-difference y-gradient with replicated
borders. -/
def gradY (I : Image) (h : ℕ) : Image := fun u v =>
  (I u (min (v+1) (h-1)) - I u (v-1)) / 2

/-- Clamp an integer coordinate into [0, n-1] (texture border clamp). -/
def clampIdx (x : ℤ) (n : ℕ) : ℕ := (max 0 (min x ((n:ℤ)-1))).toNat

/-- Modelled from the spec: bilinear interpolation with border clamp, the
semantics of the hardware texture reads of the current intensity and
gradient images (section 4.3). -/
def bilinear (I : Image) (w h : ℕ) (x y : ℚ) : ℚ :=
  let x0 : ℤ := Int.floor x
  let y0 : ℤ := Int.floor y
  let fx : ℚ := x - x0
  let fy : ℚ := y - y0
  (1-fx)*(1-fy) * I (clampIdx x0 w) (clampIdx y0 h)
  + fx*(1-fy) * I (clampIdx (x0+1) w) (clampIdx y0 h)
  + (1-fx)*fy * I (clampIdx x0 w) (clampIdx (y0+1) h)
  + fx*fy * I (clampIdx (x0+1) w) (clampIdx (y0+1) h)

/-- Sum of the three components of a 3-vector function. -/
def sumFin3 (f : Fin 3 → ℚ) : ℚ := f 0 + f 1 + f 2

/-- 3x3 matrix product. -/
def mulMat3 (A B : Mat3) : Mat3 := fun i j => sumFin3 (fun k => A i k * B k j)

/-- 3x3 matrix times 3-vector. -/
def mulMat3Vec (A : Mat3) (v : Vec3) : Vec3 := fun i => sumFin3 (fun k => A i k * v k)

/-- Modelled from the spec: downsampleK (lieAlgebra.hpp, not in src) halves
the focal lengths and maps the principal point by c -> (c + 0.5)/2 - 0.5
(section 3, intrinsics pyramid). -/
def downsampleK (K : Mat3) : Mat3 := fun i j =>
  if i = 0 ∧ j = 0 then K 0 0 / 2
  else if i = 1 ∧ j = 1 then K 1 1 / 2
  else if i = 0 ∧ j = 2 then (K 0 2 + 1/2) / 2 - 1/2
  else if i = 1 ∧ j = 2 then (K 1 2 + 1/2) / 2 - 1/2
  else K i j

/-- Modelled from the spec: invertKMat (lieAlgebra.hpp, not in src) inverts
the upper-triangular pinhole intrinsics matrix in closed form. -/
def invertKMat (K : Mat3) : Mat3 := fun i j =>
  if i = 0 ∧ j = 0 then 1 / K 0 0
  else if i = 1 ∧ j = 1 then 1 / K 1 1
  else if i = 0 ∧ j = 2 then - K 0 2 / K 0 0
  else if i = 1 ∧ j = 2 then - K 1 2 / K 1 1
  else if i = 2 ∧ j = 2 then 1
  else 0

/-- Intrinsics pyramid K_pyr, traced from fill_K_levels: level 0 is K and
each next level is the downsampled previous one. -/
def K_pyr (K : Mat3) : ℕ → Mat3
  | 0 => K
  | l+1 => downsampleK (K_pyr K l)

/-- Per-pixel output of the warp, residual and Jacobian kernels. -/
structure PixelOut where
  r : ℚ
  J : Vec6
  valid : Bool

/-- Modelled from the spec: the per-pixel work of d_transform_points,
d_calculate_residuals and d_calculate_jacobian (alignment.cuh, not in src),
following section 4.3: back-project the previous depth with R*K^-1 (the
host computes RK_inv = R * K_inv_pyr[level] and the translation t),
reproject into the current frame, test validity (z' > 0, warped coordinates
inside [0, W-1] x [0, H-1], d > 0), sample the current intensity and
gradients bilinearly, and produce the residual and the analytic 1x6
Jacobian row; invalid pixels produce r = 0 and J = 0. -/
def pixelCalc (K RKinv : Mat3) (t : Vec3) (prevG prevD curG curDx curDy : Image)
    (w h : ℕ) (u v : ℕ) : PixelOut :=
  let d := prevD u v
  let p := mulMat3Vec RKinv (fun k => if k = 0 then (u:ℚ) else if k = 1 then (v:ℚ) else 1)
  let x := d * p 0 + t 0
  let y := d * p 1 + t 1
  let z := d * p 2 + t 2
  let fx := K 0 0
  let fy := K 1 1
  let cx := K 0 2
  let cy := K 1 2
  let uw := fx * x / z + cx
  let vw := fy * y / z + cy
  if 0 < z ∧ 0 ≤ uw ∧ uw ≤ (w:ℚ)-1 ∧ 0 ≤ vw ∧ vw ≤ (h:ℚ)-1 ∧ 0 < d then
    let r := bilinear curG w h uw vw - prevG u v
    let gx := bilinear curDx w h uw vw
    let gy := bilinear curDy w h uw vw
    { r := r,
      J := fun i =>
        if i.val = 0 then fx*gx/z
        else if i.val = 1 then fy*gy/z
        else if i.val = 2 then -(fx*gx*x + fy*gy*y)/(z*z)
        else if i.val = 3 then -(fx*gx*x*y + fy*gy*(z*z + y*y))/(z*z)
        else if i.val = 4 then (fx*gx*(z*z + x*x) + fy*gy*x*y)/(z*z)
        else (-(fx*gx*y) + fy*gy*x)/z,
      valid := true }
  else { r := 0, J := zeroV6, valid := false }

/-- Sum of a per-pixel quantity over the active level prefix. -/
def sumPixels (w h : ℕ) (f : ℕ → ℕ → ℚ) : ℚ :=
  sumRange h (fun v => sumRange w (fun u => f u v))

/-- Modelled from the spec: one pass of the Student-t variance update
(kernel d_calculate_tdist_variance, not in src): accumulate the weighted
squared residuals w_i * r_i^2 with w_i = (nu+1)/(nu + r_i^2/sigma^2),
nu = 5, over the level and divide by n = w*h (the host divides by n in
calculate_weights). -/
def tdistVarianceStep (w h : ℕ) (px : ℕ → ℕ → PixelOut) (variance : ℚ) : ℚ :=
  sumPixels w h (fun u v =>
    if (px u v).valid then (6 / (5 + (px u v).r^2 / variance)) * (px u v).r^2 else 0)
    / ((w : ℚ) * (h : ℚ))

/-- Do-while loop of calculate_weights, traced from tracker.hpp: repeat
variance = step(variance) while |1/variance - 1/variance_prev| > 1e-3 and
fewer than 5 passes were made; returns the final variance and the number of
passes. -/
def varLoopAux (step : ℚ → ℚ) : ℕ → ℚ → ℕ → ℚ × ℕ
  | 0, v, iters => (v, iters)
  | fuel+1, v, iters =>
      let v2 := step v
      let it := iters + 1
      if 1/1000 < |1/v2 - 1/v| ∧ it < 5 then varLoopAux step fuel v2 it
      else (v2, it)

/-- Entry point of the variance estimation loop (iterations counter starts
at 0; the cap of 5 is the literal in tracker.hpp). -/
def tdistVarLoop (step : ℚ → ℚ) (v0 : ℚ) : ℚ × ℕ := varLoopAux step 5 v0 0

/-- Modelled from the spec: final per-pixel weights (d_set_uniform_weights
and d_calculate_tdist_weights, not in src): valid pixels get 1 in uniform
mode and (nu+1)/(nu + r^2/sigma^2) in Student-t mode; invalid pixels get 0. -/
def weightAt (useT : Bool) (variance : ℚ) (px : PixelOut) : ℚ :=
  if px.valid then (if useT then 6 / (5 + px.r^2 / variance) else 1) else 0

/-- Allocation/free trace of one reduce_array_GPU call (non-cuBLAS path),
traced from tracker.hpp: two cudaMalloc of the auxiliary reduction arrays,
then two cudaFree. -/
def reduce_array_GPU_trace (size : ℕ) : List DevEvent :=
  let nb1 := (size + 1023) / 1024
  let nb2 := (nb1 + 1023) / 1024
  [DevEvent.malloc (nb1*4), DevEvent.malloc (nb2*4), DevEvent.free, DevEvent.free]

/-- Allocation/free trace of one calculate_error call, traced from
tracker.hpp: the cuBLAS path allocates nothing, the hand-rolled path
allocates and frees two auxiliary reduction arrays. -/
def calculate_error_trace (cublas : Bool) (size : ℕ) : List DevEvent :=
  if cublas then [] else reduce_array_GPU_trace size

/-- Allocation/free trace of one calculate_weights call, traced from
tracker.hpp: uniform weights and the cuBLAS path allocate nothing; the
hand-rolled Student-t path calls reduce_array_GPU once per variance pass. -/
def calculate_weights_trace (useT cublas : Bool) (size passes : ℕ) : List DevEvent :=
  if useT then
    (if cublas then [] else List.flatten (List.replicate passes (reduce_array_GPU_trace size)))
  else []

/-- Modelled from the spec (device kernels) and traced from tracker.hpp
(host control flow): the per-iteration device work at one pyramid level.
Computes the per-pixel warp/residual/Jacobian outputs from the previous
frame pyramid and the current intensity pyramid, the scalar error
e = sum r^2, the Student-t variance loop (or untouched variance in uniform
mode), the weights, and the assembled normal equations A = J^T W J and
b = J^T W r, together with the device allocation trace of the iteration.
The current depth image is not an input: transform_points reads
d_prev[level].depth and the textures are bound to the current intensity and
its gradients only. -/
def devImages {G : Type} (L : LieModel G) (cfg : Config)
    (prevG prevD curG : Image) (level : ℕ) (xi : Vec6) (variance : ℚ) : DevOut :=
  let w := cfg.width / 2^level
  let h := cfg.height / 2^level
  let Kl := K_pyr cfg.K level
  let Kinv := invertKMat Kl
  let Rt := L.convertSE3ToT xi
  let RKinv := mulMat3 Rt.1 Kinv
  let pG := pyrGray prevG level
  let pD := pyrDepth prevD level
  let cG := pyrGray curG level
  let cDx := gradX cG w
  let cDy := gradY cG h
  let px : ℕ → ℕ → PixelOut := fun u v => pixelCalc Kl RKinv Rt.2 pG pD cG cDx cDy w h u v
  let err := sumPixels w h (fun u v => (px u v).r ^ 2)
  let vres := if cfg.useTDistWeights
    then tdistVarLoop (tdistVarianceStep w h px) variance else (variance, 0)
  let W : ℕ → ℕ → ℚ := fun u v => weightAt cfg.useTDistWeights vres.1 (px u v)
  { err := err,
    A := fun i j => sumPixels w h (fun u v => W u v * (px u v).J i * (px u v).J j),
    b := fun i => sumPixels w h (fun u v => W u v * (px u v).J i * (px u v).r),
    var := vres.1,
    trace := calculate_error_trace cfg.cublas (w*h)
      ++ calculate_weights_trace cfg.useTDistWeights cfg.cublas (w*h) vres.2 }

/-- Pyramid levels processed per align call, traced from the for loop:
maxLevel down to minLevel (empty when minLevel > maxLevel). -/
def levelList (maxLevel minLevel : ℕ) : List ℕ :=
  (List.range' minLevel (maxLevel + 1 - minLevel)).reverse

/-- Persistent tracker state across align calls: the previous frame's
level-0 rasters (the pyramids are deterministic functions of them), the
warm-started inter-frame estimate xi and the accumulated pose xi_total. -/
structure TrackerState where
  prevGray : Image
  prevDepth : Image
  xi : Vec6
  xi_total : Vec6

/-- Coarse-to-fine level loop, traced from Tracker::align: for each level
(in list order) run the inner loop with error_prev = BIG_FLOAT and
variance = VARIANCE_INITIAL, carrying xi across levels; also concatenates
the device allocation traces. -/
def runLevels {G : Type} (L : LieModel G) (dev : ℕ → Vec6 → ℚ → DevOut)
    (maxIter : ℕ) : List ℕ → Vec6 → Vec6 × List DevEvent
  | [], xi => (xi, [])
  | l :: ls, xi =>
      let res := innerLoop L (dev l) maxIter ⟨xi, VARIANCE_INITIAL⟩ BIG_FLOAT
      let rest := runLevels L dev maxIter ls res.1.xi
      (rest.1, res.2.2 ++ rest.2)

/-- Tracker::align, traced from tracker.hpp: fill the current pyramid from
the new gray and depth rasters (the depth goes into the current slot and is
not read during this call), run the coarse-to-fine loop starting from the
warm-started xi, swap the frame slots, accumulate
xi_total = lieLog(lieExp(xi_total) * lieExp(xi).inverse()) and return it. -/
def align {G : Type} (L : LieModel G) (cfg : Config) (s : TrackerState)
    (grayCur depthCur : Image) : Vec6 × TrackerState :=
  let dev : ℕ → Vec6 → ℚ → DevOut := fun level xi var =>
    devImages L cfg s.prevGray s.prevDepth grayCur level xi var
  let res := runLevels L dev cfg.maxIterationsPerLevel
    (levelList cfg.maxLevel cfg.minLevel) s.xi
  let xiNew := res.1
  let xiTotalNew := L.lieLog (L.mul (L.lieExp s.xi_total) (L.inv (L.lieExp xiNew)))
  (xiTotalNew,
   { prevGray := grayCur, prevDepth := depthCur, xi := xiNew, xi_total := xiTotalNew })

/-- Device allocation trace of one align call (the host calls visible in
tracker.hpp; the internals of imresize_CUDA, which its call site notes also
allocate, are not part of the provided sources and are not modelled). -/
def alignTrace {G : Type} (L : LieModel G) (cfg : Config) (s : TrackerState)
    (grayCur : Image) : List DevEvent :=
  (runLevels L
    (fun level xi var => devImages L cfg s.prevGray s.prevDepth grayCur level xi var)
    cfg.maxIterationsPerLevel (levelList cfg.maxLevel cfg.minLevel) s.xi).2

/-- Configuration-error taxonomy of the spec (section 7). -/
inductive ConfigError
  | configurationError
deriving DecidableEq

/-- Tracker constructor host logic, traced from tracker.hpp lines 45-112:
the member initializers set xi = xi_total = 0 and store the configuration,
buffers are allocated, the intrinsics pyramid is computed and the first
frame is filled into the previous slot.  No validation of width, height,
K, the pyramid geometry or solvingMethod appears anywhere in the
constructor, so every path returns the constructed state. -/
def trackerInit (grayFirstFrame depthFirstFrame : Image) (cfg : Config) :
    Except ConfigError TrackerState :=
  Except.ok { prevGray := grayFirstFrame, prevDepth := depthFirstFrame,
              xi := zeroV6, xi_total := zeroV6 }

/-- Allocation trace of allocateGPUMemory, traced from tracker.hpp lines
915-955: the level-0-sized scratch buffers (J, JTW, W, r, the three primed
coordinates, the two warped coordinates), the 6-vector b, the 6x6 A, the
scalar error; per pyramid level the 8 per-level rasters sized for that
level; and, in the non-cuBLAS build, the four pre-reduction buffers. -/
def allocateGPUMemoryTrace (cfg : Config) : List DevEvent :=
  let w := cfg.width
  let h := cfg.height
  [DevEvent.malloc (6*w*h*4), DevEvent.malloc (6*w*h*4),
   DevEvent.malloc (w*h*4), DevEvent.malloc (w*h*4), DevEvent.malloc (w*h*4),
   DevEvent.malloc (w*h*4), DevEvent.malloc (w*h*4), DevEvent.malloc (w*h*4),
   DevEvent.malloc (w*h*4),
   DevEvent.malloc (6*4), DevEvent.malloc (6*6*4), DevEvent.malloc 4]
  ++ List.flatten ((List.range (cfg.maxLevel+1)).map (fun l =>
       List.replicate 8 (DevEvent.malloc ((w / 2^l) * (h / 2^l) * 4))))
  ++ (if cfg.cublas then [] else
       [DevEvent.malloc ((6*6*w*h*4 + 1023)/1024), DevEvent.malloc ((6*6*w*h*4 + 1023)/1024),
        DevEvent.malloc ((6*1*w*h*4 + 1023)/1024), DevEvent.malloc ((6*1*w*h*4 + 1023)/1024)])

/-- Constant device oracle (used to instantiate theorems concretely). -/
def devConst (o : DevOut) : Vec6 → ℚ → DevOut := fun _ _ => o

/-- Unit vector along the first twist coordinate. -/
def e0V6 : Vec6 := fun i => if i.val = 0 then 1 else 0

/-- Unit vector along the fourth twist coordinate (translation part in the
translation-only model). -/
def e3V6 : Vec6 := fun i => if i.val = 3 then 1 else 0

/-- Negated 6x6 identity: a symmetric matrix that is not positive definite. -/
def negIdentM6 : Mat6 := diagM6 (fun _ => -1)

/-- Device oracle whose assembled system is the non-positive-definite
negated identity with right-hand side e0 and error 1. -/
def devC3 : Vec6 → ℚ → DevOut := devConst { err := 1, A := negIdentM6, b := e0V6, var := 0, trace := [] }

/-- Device oracle returning the maximal float error with a zero system. -/
def devBigErr : Vec6 → ℚ → DevOut :=
  devConst { err := BIG_FLOAT, A := zeroM6, b := zeroV6, var := 0, trace := [] }

/-- Initial iteration state used in concrete instantiations. -/
def iterState0 : IterState := { xi := zeroV6, var := VARIANCE_INITIAL }

/-- Small concrete configuration for counterexamples (1x1 image, single
pyramid level, one iteration, uniform weights, hand-rolled path). -/
def cfgTiny : Config :=
  { width := 1, height := 1, K := fun i j => if i = j then 1 else 0,
    minLevel := 0, maxLevel := 0, useTDistWeights := false,
    maxIterationsPerLevel := 1, solvingMethod := SolvingMethod.GAUSS_NEWTON,
    cublas := false }

/-- Demo intrinsics matrix (fx = fy = 50, cx = 31.5, cy = 23.5). -/
def KDemo : Mat3 := fun i j =>
  if i = j then (if i.val = 2 then 1 else 50)
  else if i.val = 0 ∧ j.val = 2 then 63/2
  else if i.val = 1 ∧ j.val = 2 then 47/2
  else 0

/-- Configuration whose solver selector is not Gauss-Newton. -/
def cfgLM : Config :=
  { width := 64, height := 48, K := KDemo, minLevel := 0, maxLevel := 4,
    useTDistWeights := true, maxIterationsPerLevel := 20,
    solvingMethod := SolvingMethod.LEVENBERG_MARQUARDT, cublas := false }

/-- Configuration with zero width (and the default solver). -/
def cfgZeroWidth : Config :=
  { cfgLM with width := 0, solvingMethod := SolvingMethod.GAUSS_NEWTON }

/-- Number of cudaMalloc events in a trace. -/
def countMalloc (t : List DevEvent) : ℕ := (t.filter DevEvent.isMalloc).length

/-- Number of cudaFree events in a trace. -/
def countFree (t : List DevEvent) : ℕ := (t.filter DevEvent.isFree).length

/-- Two-level configuration exposing the per-level sizing of the pyramid
buffers. -/
def cfgPyr : Config :=
  { width := 2, height := 2, K := KDemo, minLevel := 0, maxLevel := 1,
    useTDistWeights := false, maxIterationsPerLevel := 1,
    solvingMethod := SolvingMethod.GAUSS_NEWTON, cublas := false }

theorem qsum_nil : qsum [] = 0 := rfl

theorem qsum_cons (a : ℚ) (l : List ℚ) : qsum (a :: l) = a + qsum l := rfl

theorem qsum_eq_zero {l : List ℚ} (h : ∀ x ∈ l, x = 0) : qsum l = 0 := by
  induction l with
  | nil => rfl
  | cons a l ih =>
      rw [qsum_cons, h a (List.mem_cons_self a l),
        ih (fun x hx => h x (List.mem_cons_of_mem a hx))]
      ring

theorem negV6_zero : negV6 zeroV6 = zeroV6 := by
  funext i; simp [negV6, zeroV6]

theorem sumRange_congr {n : ℕ} {f g : ℕ → ℚ} (h : ∀ i, i < n → f i = g i) :
    sumRange n f = sumRange n g := by
  unfold sumRange
  rw [List.map_congr_left (fun i hi => h i (List.mem_range.mp hi))]

theorem sumRange_eq_zero {n : ℕ} {f : ℕ → ℚ} (h : ∀ i, i < n → f i = 0) :
    sumRange n f = 0 := by
  unfold sumRange
  exact qsum_eq_zero (by
    intro x hx
    rcases List.mem_map.mp hx with ⟨i, hi, rfl⟩
    exact h i (List.mem_range.mp hi))

/-- Second components of enum entries are list members. -/
theorem snd_mem_of_mem_enum {l : List ℚ} {kz : ℕ × ℚ} (h : kz ∈ l.enum) : kz.2 ∈ l := by
  have hm := List.mem_map_of_mem Prod.snd h
  rwa [List.enum_map_snd] at hm

theorem getD_replicate0 (n i : ℕ) : (List.replicate n (0:ℚ)).getD i 0 = 0 := by
  rw [List.getD_eq_getElem?_getD, List.getElem?_replicate]
  by_cases h : i < n <;> simp [h]

/-!
## LDLT (Cholesky) factorization and solve

Modelled from the spec: the host step of section 4.6 solves the 6x6 normal
equations with Eigen's LDLT (Cholesky) factorization
(`xi_delta = -(A.ldlt().solve(b))` in Tracker::align).  Eigen is an external
library, so the factorization below is the textbook LDL^T algorithm over
exact rationals: a unit lower-triangular factor L and diagonal D with
A = L D L^T, then forward substitution, diagonal division (a vanishing pivot
contributes a zero component, mirroring Eigen's rank-deficient LDLT solve)
and back substitution.
-/

theorem forwardSub_zero (L : ℕ → ℕ → ℚ) (b : ℕ → ℚ) (hb : ∀ i, b i = 0) (n : ℕ) :
    forwardSub L b n = List.replicate n 0 := by
  induction n with
  | zero => rfl
  | succ m ih =>
      have hz : ∀ x ∈ ((List.replicate m (0:ℚ)).enum.map
          (fun kz => L m kz.1 * kz.2)), x = 0 := by
        intro x hx
        rcases List.mem_map.mp hx with ⟨kz, hkz, rfl⟩
        rw [List.eq_of_mem_replicate (snd_mem_of_mem_enum hkz), mul_zero]
      simp only [forwardSub, ih, qsum_eq_zero hz, hb m]
      rw [List.replicate_succ' m (0:ℚ)]
      norm_num

theorem backSubRev_zero (L : ℕ → ℕ → ℚ) (y : ℕ → ℚ) (hy : ∀ i, y i = 0) (N n : ℕ) :
    backSubRev L y N n = List.replicate n 0 := by
  induction n with
  | zero => rfl
  | succ m ih =>
      have hz : ∀ x ∈ ((List.replicate m (0:ℚ)).enum.map
          (fun mu => L (N-1-mu.1) (N-1-m) * mu.2)), x = 0 := by
        intro x hx
        rcases List.mem_map.mp hx with ⟨mu, hmu, rfl⟩
        rw [List.eq_of_mem_replicate (snd_mem_of_mem_enum hmu), mul_zero]
      simp only [backSubRev, ih, qsum_eq_zero hz, hy (N-1-m)]
      rw [List.replicate_succ' m (0:ℚ)]
      norm_num

/-- Whatever the matrix (in particular a singular or indefinite one),
solving with the zero right-hand side returns the zero step.  This is the
degenerate-frame situation: A = 0 and b = 0 give delta_xi = 0. -/
theorem ldltSolve_bzero (A : Mat6) : ldltSolve A zeroV6 = zeroV6 := by
  have hb : ∀ i, vecN zeroV6 i = 0 := by
    intro i; unfold vecN zeroV6; by_cases h : i < 6 <;> simp [h]
  have hz : ldltZ A zeroV6 = List.replicate 6 0 := forwardSub_zero _ _ hb 6
  have hy : ∀ i, ldltY A zeroV6 i = 0 := by
    intro i
    unfold ldltY
    by_cases h : ldltD A i = 0
    · simp [h]
    · simp only [h, if_false, hz, getD_replicate0, zero_div]
  have hx : ldltX A zeroV6 = List.replicate 6 0 := backSubRev_zero _ _ hy 6 6
  funext i
  show (ldltX A zeroV6).getD (5 - i.val) 0 = 0
  rw [hx, getD_replicate0]

theorem getD_map_range {α : Type} (f : ℕ → α) (n k : ℕ) (hd : α) :
    ((List.range n).map f).getD k hd = if k < n then f k else hd := by
  rw [List.getD_eq_getElem?_getD, List.getElem?_map]
  by_cases h : k < n
  · rw [List.getElem?_range h]; simp [h]
  · rw [List.getElem?_eq_none (by simpa using Nat.le_of_not_lt h)]; simp [h]

theorem ldltCols_diagN (M : ℕ → ℕ → ℚ) (hM : ∀ i j, i ≠ j → M i j = 0) (n : ℕ) :
    ldltCols M n = (List.range n).map (fun k => (indCol k, M k k)) := by
  induction n with
  | zero => rfl
  | succ m ih =>
      have hz1 : qsum ((((List.range m).map (fun k => (indCol k, M k k))).map
          (fun cd => cd.1 m * cd.1 m * cd.2))) = 0 := by
        apply qsum_eq_zero
        intro x hx
        rcases List.mem_map.mp hx with ⟨cd, hcd, rfl⟩
        rcases List.mem_map.mp hcd with ⟨k, hk, rfl⟩
        have hkm : k < m := List.mem_range.mp hk
        simp [indCol, Nat.ne_of_gt hkm]
      simp only [ldltCols, ih]
      rw [List.range_succ, List.map_append]
      congr 1
      simp only [List.map_cons, List.map_nil]
      congr 1
      have hdn : M m m - qsum ((((List.range m).map (fun k => (indCol k, M k k))).map
          (fun cd => cd.1 m * cd.1 m * cd.2))) = M m m := by rw [hz1]; ring
      refine Prod.ext ?_ ?_
      · funext i
        by_cases h1 : i < m
        · simp only [h1, if_true]
          simp [indCol, Nat.ne_of_lt h1]
        · by_cases h2 : i = m
          · simp [h1, h2, indCol]
          · have hz2 : qsum ((((List.range m).map (fun k => (indCol k, M k k))).map
                (fun cd => cd.1 i * cd.1 m * cd.2))) = 0 := by
              apply qsum_eq_zero
              intro x hx
              rcases List.mem_map.mp hx with ⟨cd, hcd, rfl⟩
              rcases List.mem_map.mp hcd with ⟨k, hk, rfl⟩
              have hkm : k < m := List.mem_range.mp hk
              simp [indCol, Nat.ne_of_gt hkm]
            simp only [h1, if_false, h2, if_false]
            rw [hM i m h2, hz2]
            simp [indCol, h2]
      · simpa using hdn

theorem forwardSub_lower (L : ℕ → ℕ → ℚ) (hL : ∀ r k, k < r → L r k = 0)
    (b : ℕ → ℚ) (n : ℕ) :
    forwardSub L b n = (List.range n).map b := by
  induction n with
  | zero => rfl
  | succ m ih =>
      have hz : ∀ x ∈ (((List.range m).map b).enum.map (fun kz => L m kz.1 * kz.2)),
          x = 0 := by
        intro x hx
        rcases List.mem_map.mp hx with ⟨kz, hkz, rfl⟩
        have h1 := List.mem_enum_iff_getElem?.mp hkz
        rcases List.getElem?_eq_some.mp h1 with ⟨hlt, _⟩
        simp only [List.length_map, List.length_range] at hlt
        rw [hL m kz.1 hlt, zero_mul]
      simp only [forwardSub, ih, qsum_eq_zero hz]
      rw [List.range_succ, List.map_append]
      norm_num

theorem backSubRev_offdiag (L : ℕ → ℕ → ℚ) (hL : ∀ r k, r ≠ k → L r k = 0)
    (y : ℕ → ℚ) : ∀ n : ℕ, n ≤ 6 →
    backSubRev L y 6 n = (List.range n).map (fun j => y (5-j)) := by
  intro n
  induction n with
  | zero => intro _; rfl
  | succ m ih =>
      intro hn
      have hz : ∀ x ∈ ((((List.range m).map (fun j => y (5-j))).enum.map
          (fun mu => L (6-1-mu.1) (6-1-m) * mu.2))), x = 0 := by
        intro x hx
        rcases List.mem_map.mp hx with ⟨mu, hmu, rfl⟩
        have h1 := List.mem_enum_iff_getElem?.mp hmu
        rcases List.getElem?_eq_some.mp h1 with ⟨hlt, _⟩
        simp only [List.length_map, List.length_range] at hlt
        have hne : 6-1-mu.1 ≠ 6-1-m := by omega
        rw [hL _ _ hne, zero_mul]
      simp only [backSubRev, ih (by omega), qsum_eq_zero hz]
      rw [List.range_succ, List.map_append]
      norm_num

theorem ldltMatN_diag_offdiag (d : Vec6) :
    ∀ i j, i ≠ j → ldltMatN (diagM6 d) i j = 0 := by
  intro i j hij
  unfold ldltMatN diagM6
  by_cases hi : i < 6
  · by_cases hj : j < 6
    · simp only [hi, hj, dif_pos]
      rw [if_neg]
      intro hc
      exact hij (by simpa [Fin.ext_iff] using hc)
    · simp [hi, hj]
  · simp [hi]

theorem ldltL_diag (d : Vec6) (r k : ℕ) :
    ldltL (diagM6 d) r k = if k < 6 then indCol k r else 0 := by
  unfold ldltL
  rw [ldltCols_diagN _ (ldltMatN_diag_offdiag d), getD_map_range]
  by_cases h : k < 6 <;> simp [h]

theorem ldltD_diag (d : Vec6) (k : ℕ) :
    ldltD (diagM6 d) k = if k < 6 then ldltMatN (diagM6 d) k k else 0 := by
  unfold ldltD
  rw [ldltCols_diagN _ (ldltMatN_diag_offdiag d), getD_map_range]
  by_cases h : k < 6 <;> simp [h]

/-- Closed form of the LDLT solve for diagonal systems: each component is
b i / d i, with vanishing pivots zeroed. -/
theorem ldltSolve_diag (d b : Vec6) :
    ldltSolve (diagM6 d) b = fun i => if d i = 0 then 0 else b i / d i := by
  have hLlow : ∀ r k, k < r → ldltL (diagM6 d) r k = 0 := by
    intro r k hkr
    rw [ldltL_diag]
    by_cases h : k < 6
    · simp [h, indCol, Nat.ne_of_gt hkr]
    · simp [h]
  have hLoff : ∀ r k, r ≠ k → ldltL (diagM6 d) r k = 0 := by
    intro r k hrk
    rw [ldltL_diag]
    by_cases h : k < 6
    · simp [h, indCol, hrk]
    · simp [h]
  have hzl : ldltZ (diagM6 d) b = (List.range 6).map (vecN b) :=
    forwardSub_lower _ hLlow _ 6
  have hy : ∀ i, i < 6 → ldltY (diagM6 d) b i =
      if ldltD (diagM6 d) i = 0 then 0 else vecN b i / ldltD (diagM6 d) i := by
    intro i hi
    unfold ldltY
    rw [hzl, getD_map_range]
    simp [hi]
  have hxs : ldltX (diagM6 d) b =
      (List.range 6).map (fun j => ldltY (diagM6 d) b (5-j)) :=
    backSubRev_offdiag _ hLoff _ 6 (le_refl 6)
  funext i
  show (ldltX (diagM6 d) b).getD (5 - i.val) 0 = _
  rw [hxs, getD_map_range]
  have hi6 : 5 - i.val < 6 := by omega
  rw [if_pos hi6]
  have hii : 5 - (5 - i.val) = i.val := by omega
  rw [hii]
  rw [hy i.val i.isLt]
  have hD : ldltD (diagM6 d) i.val = d i := by
    rw [ldltD_diag, if_pos i.isLt]
    unfold ldltMatN diagM6
    simp [i.isLt]
  have hb : vecN b i.val = b i := by
    unfold vecN
    simp [i.isLt]
  rw [hD, hb]

theorem sumFin6_eq_sum (f : Fin 6 → ℚ) : sumFin6 f = Finset.univ.sum f := by
  rw [Fin.sum_univ_six]; rfl

theorem mulVec6_diag (d x : Vec6) : mulVec6 (diagM6 d) x = fun i => d i * x i := by
  funext i
  show sumFin6 (fun j => diagM6 d i j * x j) = d i * x i
  rw [sumFin6_eq_sum]
  have h : ∀ j, diagM6 d i j * x j = if i = j then d i * x j else 0 := by
    intro j; unfold diagM6; by_cases h : i = j <;> simp [h]
  simp only [h]
  simp [Finset.sum_ite_eq]

/-- On any invertible diagonal system the embedded LDLT solve returns the
exact solution of A x = b. -/
theorem ldltSolve_diag_correct (d b : Vec6) (hd : ∀ i, d i ≠ 0) :
    mulVec6 (diagM6 d) (ldltSolve (diagM6 d) b) = b := by
  rw [ldltSolve_diag, mulVec6_diag]
  funext i
  simp only [hd i, if_false]
  rw [mul_div_cancel₀ _ (hd i)]

theorem errAt_shift {G : Type} (L : LieModel G) (dev : Vec6 → ℚ → DevOut)
    (s : IterState) (j : ℕ) :
    errAt L dev (iterStep L dev s) j = errAt L dev s (j+1) := rfl

/-- Structural characterization of the inner loop: the returned state is
the result of exactly k updates where k is the declarative stop count, the
final update being retained. -/
theorem innerLoop_char {G : Type} (L : LieModel G) (dev : Vec6 → ℚ → DevOut) :
    ∀ (n : ℕ) (s : IterState) (errPrev : ℚ),
    (innerLoop L dev n s errPrev).1 = iterN L dev (innerLoop L dev n s errPrev).2.1 s ∧
    (innerLoop L dev n s errPrev).2.1 = levelStopSpec (errAt L dev s) errPrev n := by
  intro n
  induction n with
  | zero => intro s errPrev; exact ⟨rfl, rfl⟩
  | succ m ih =>
      intro s errPrev
      show (innerLoop L dev (m+1) s errPrev).1 = _ ∧ _
      rw [innerLoop, levelStopSpec]
      have hcond : (dev s.xi s.var).err = errAt L dev s 0 := rfl
      by_cases hc : (dev s.xi s.var).err / errPrev > 199/200 ∨ (dev s.xi s.var).err = 0
      · rw [if_pos hc, if_pos (by rw [← hcond]; exact hc)]
        exact ⟨rfl, rfl⟩
      · rw [if_neg hc, if_neg (by rw [← hcond]; exact hc)]
        rcases ih (iterStep L dev s) ((dev s.xi s.var).err) with ⟨h1, h2⟩
        constructor
        · simpa using h1
        · show (innerLoop L dev m (iterStep L dev s) (dev s.xi s.var).err).2.1 + 1 = _
          rw [h2]
          have hsh : (fun j => errAt L dev s (j+1)) = errAt L dev (iterStep L dev s) := rfl
          rw [← hsh]
          have e0 : errAt L dev s 0 = (dev s.xi s.var).err := rfl
          rw [e0]
          omega

theorem levelStopSpec_le (errs : ℕ → ℚ) (errPrev : ℚ) :
    ∀ n, levelStopSpec errs errPrev n ≤ n := by
  intro n
  induction n generalizing errs errPrev with
  | zero => exact Nat.le_refl 0
  | succ m ih =>
      rw [levelStopSpec]
      by_cases hc : errs 0 / errPrev > 199/200 ∨ errs 0 = 0
      · rw [if_pos hc]; omega
      · rw [if_neg hc]
        have := ih (fun j => errs (j+1)) (errs 0)
        omega

theorem levelStopSpec_pos (errs : ℕ → ℚ) (errPrev : ℚ) (n : ℕ) (hn : 1 ≤ n) :
    1 ≤ levelStopSpec errs errPrev n := by
  rcases n with _ | m
  · omega
  · rw [levelStopSpec]
    by_cases hc : errs 0 / errPrev > 199/200 ∨ errs 0 = 0
    · rw [if_pos hc]
    · rw [if_neg hc]; omega

theorem BIG_FLOAT_pos : 0 < BIG_FLOAT := by norm_num [BIG_FLOAT]

theorem innerLoop_one_applies_update {G : Type} (L : LieModel G)
    (dev : Vec6 → ℚ → DevOut) (s : IterState) (errPrev : ℚ) :
    (innerLoop L dev 1 s errPrev).1 = iterStep L dev s := by
  show (innerLoop L dev (0+1) s errPrev).1 = _
  rw [innerLoop]
  by_cases hc : (dev s.xi s.var).err / errPrev > 199/200 ∨ (dev s.xi s.var).err = 0
  · rw [if_pos hc]
  · rw [if_neg hc]
    rfl

/-- C1.  After the per-level optimization finishes, align updates the
accumulated pose by the inverse-incremental convention
xi_total = lieLog(lieExp(xi_total) * lieExp(xi).inverse()), where xi is the
final inter-frame estimate, stores it, and returns it as its result. -/
theorem C1_inverse_incremental_accumulation {G : Type} (L : LieModel G)
    (cfg : Config) (s : TrackerState) (g d : Image) :
    (align L cfg s g d).1
      = L.lieLog (L.mul (L.lieExp s.xi_total) (L.inv (L.lieExp (align L cfg s g d).2.xi)))
    ∧ (align L cfg s g d).2.xi_total = (align L cfg s g d).1 :=
  ⟨rfl, rfl⟩

/-- C2.  Every inner iteration solves A * delta_xi = b with the LDLT
(Cholesky) factorization and updates the pose by left-composition of the
negated solve result: xi_new = lieLog(lieExp(-delta_xi) * lieExp(xi)); on
an invertible diagonal system the embedded LDLT solve indeed solves
A x = b exactly. -/
theorem C2_ldlt_solve_and_left_composition {G : Type} (L : LieModel G)
    (dev : Vec6 → ℚ → DevOut) (s : IterState) (dvec bvec : Vec6)
    (hd : ∀ i, dvec i ≠ 0) :
    (iterStep L dev s).xi
      = L.lieLog (L.mul
          (L.lieExp (negV6 (ldltSolve (dev s.xi s.var).A (dev s.xi s.var).b)))
          (L.lieExp s.xi))
    ∧ mulVec6 (diagM6 dvec) (ldltSolve (diagM6 dvec) bvec) = bvec :=
  ⟨rfl, ldltSolve_diag_correct dvec bvec hd⟩

theorem C2_witness :
    (∀ i : Fin 6, (1:ℚ) ≠ 0) ∧
    ((iterStep transModel devC3 iterState0).xi
      = transModel.lieLog (transModel.mul
          (transModel.lieExp (negV6 (ldltSolve (devC3 iterState0.xi iterState0.var).A
            (devC3 iterState0.xi iterState0.var).b)))
          (transModel.lieExp iterState0.xi))
    ∧ mulVec6 (diagM6 (fun _ => 1)) (ldltSolve (diagM6 (fun _ => 1)) e0V6) = e0V6) :=
  ⟨fun _ => one_ne_zero,
   C2_ldlt_solve_and_left_composition transModel devC3 iterState0 (fun _ => 1) e0V6
     (fun _ => one_ne_zero)⟩

/-- C9.  The pose is updated before the convergence test is evaluated: the
state returned by a level is exactly the state after all executed updates
(the final iteration's update is retained even when that iteration
terminates the level), and with at least one allowed iteration every
processed level applies at least one update. -/
theorem C9_update_before_test {G : Type} (L : LieModel G)
    (dev : Vec6 → ℚ → DevOut) (n : ℕ) (s : IterState) (errPrev : ℚ)
    (hn : 1 ≤ n) :
    1 ≤ (innerLoop L dev n s errPrev).2.1
    ∧ (innerLoop L dev n s errPrev).1
        = iterN L dev (innerLoop L dev n s errPrev).2.1 s := by
  rcases innerLoop_char L dev n s errPrev with ⟨h1, h2⟩
  refine ⟨?_, h1⟩
  rw [h2]
  exact levelStopSpec_pos _ _ n hn

theorem C9_witness :
    1 ≤ 1
    ∧ (1 ≤ (innerLoop transModel devBigErr 1 iterState0 BIG_FLOAT).2.1
    ∧ (innerLoop transModel devBigErr 1 iterState0 BIG_FLOAT).1
        = iterN transModel devBigErr
            (innerLoop transModel devBigErr 1 iterState0 BIG_FLOAT).2.1 iterState0) :=
  ⟨le_refl 1, C9_update_before_test transModel devBigErr 1 iterState0 BIG_FLOAT (le_refl 1)⟩

theorem levelList_length (maxL minL : ℕ) :
    (levelList maxL minL).length = maxL + 1 - minL := by
  unfold levelList
  rw [List.length_reverse, List.length_range']

theorem levelList_getD (maxL minL i : ℕ) (hi : i < maxL + 1 - minL) :
    (levelList maxL minL).getD i 0 = maxL - i := by
  unfold levelList
  have hlen : ((List.range' minL (maxL + 1 - minL)).reverse).length = maxL + 1 - minL := by
    rw [List.length_reverse, List.length_range']
  rw [List.getD_eq_getElem _ _ (by rw [hlen]; exact hi)]
  rw [List.getElem_reverse]
  rw [List.getElem_range']
  · rw [List.length_range']
    omega

/-- C4 (amended).  Per align call, levels are processed from maxLevel down
to minLevel (the level list enumerates maxLevel - i at position i); at each
level error_prev is initialized to BIG_FLOAT (the largest finite
single-precision float, (2^24 - 1) * 2^104, not plus infinity), at most
maxIterationsPerLevel inner iterations run, and the level terminates
exactly when e / e_prev > 0.995 or e == 0, with e_prev otherwise becoming
e: the executed iteration count equals the declarative stop count. -/
theorem C4_level_loop_amended {G : Type} (L : LieModel G)
    (dev : Vec6 → ℚ → DevOut) (n : ℕ) (s : IterState) (maxL minL : ℕ) :
    (innerLoop L dev n s BIG_FLOAT).2.1 = levelStopSpec (errAt L dev s) BIG_FLOAT n
    ∧ (innerLoop L dev n s BIG_FLOAT).2.1 ≤ n
    ∧ (levelList maxL minL).length = maxL + 1 - minL
    ∧ (∀ i, i < maxL + 1 - minL → (levelList maxL minL).getD i 0 = maxL - i) := by
  rcases innerLoop_char L dev n s BIG_FLOAT with ⟨_, h2⟩
  exact ⟨h2, by rw [h2]; exact levelStopSpec_le _ _ n,
    levelList_length maxL minL, fun i hi => levelList_getD maxL minL i hi⟩

theorem C4_witness :
    ((0 : ℕ) < 4 + 1 - 1)
    ∧ (levelList 4 1).getD 0 0 = 4 - 0 :=
  ⟨by norm_num,
   (C4_level_loop_amended transModel devBigErr 1 iterState0 4 1).2.2.2 0 (by norm_num)⟩

/-- C4 (counterexample).  On an error sequence that is constantly FLT_MAX,
the code's loop (error_prev initialized to BIG_FLOAT = FLT_MAX) terminates
after the first iteration, because FLT_MAX / FLT_MAX = 1 > 0.995, whereas
the loop described by the claim (error_prev initialized to plus infinity)
would run a second iteration: the claimed initialization does not match the
code. -/
theorem C4_cex_error_prev_is_flt_max :
    (innerLoop transModel devBigErr 2 iterState0 BIG_FLOAT).2.1 = 1
    ∧ levelStopSpecInfty (errAt transModel devBigErr iterState0) Option.none 2 = 2
    ∧ (innerLoop transModel devBigErr 2 iterState0 BIG_FLOAT).2.1
        ≠ levelStopSpecInfty (errAt transModel devBigErr iterState0) Option.none 2 := by
  have hratio : BIG_FLOAT / BIG_FLOAT = 1 := div_self (ne_of_gt BIG_FLOAT_pos)
  have hc : (devBigErr iterState0.xi iterState0.var).err / BIG_FLOAT > 199/200
      ∨ (devBigErr iterState0.xi iterState0.var).err = 0 := by
    left
    show BIG_FLOAT / BIG_FLOAT > 199/200
    rw [hratio]
    norm_num
  have h1 : (innerLoop transModel devBigErr 2 iterState0 BIG_FLOAT).2.1 = 1 := by
    show (innerLoop transModel devBigErr (1+1) iterState0 BIG_FLOAT).2.1 = 1
    rw [innerLoop, if_pos hc]
  have hne : errAt transModel devBigErr iterState0 0 ≠ 0 := by
    show BIG_FLOAT ≠ 0
    exact ne_of_gt BIG_FLOAT_pos
  have h2 : levelStopSpecInfty (errAt transModel devBigErr iterState0) Option.none 2 = 2 := by
    show levelStopSpecInfty (errAt transModel devBigErr iterState0) Option.none (1+1) = 2
    rw [levelStopSpecInfty, if_neg hne]
    have hc2 : errAt transModel devBigErr iterState0 (0+1)
        / errAt transModel devBigErr iterState0 0 > 199/200
        ∨ errAt transModel devBigErr iterState0 (0+1) = 0 := by
      left
      show BIG_FLOAT / BIG_FLOAT > 199/200
      rw [hratio]
      norm_num
    rw [levelStopSpecInfty, if_pos hc2]
  exact ⟨h1, h2, by rw [h1, h2]; norm_num⟩

/-- C3 (amended).  No positive-definiteness check exists: in every executed
iteration the LDLT solve result is applied to the pose unconditionally
(whatever A is), and a level terminates early only through the error test
e / e_prev > 0.995 or e == 0 — in particular, when the first error test
does not fire, the level continues past the first iteration regardless of
any property of A. -/
theorem C3_no_spd_rejection_amended {G : Type} (L : LieModel G)
    (dev : Vec6 → ℚ → DevOut) (s : IterState) (errPrev : ℚ) (n : ℕ)
    (hn : 2 ≤ n)
    (hno : ¬ (errAt L dev s 0 / errPrev > 199/200 ∨ errAt L dev s 0 = 0)) :
    2 ≤ (innerLoop L dev n s errPrev).2.1
    ∧ (innerLoop L dev 1 s errPrev).1 = iterStep L dev s := by
  refine ⟨?_, innerLoop_one_applies_update L dev s errPrev⟩
  rcases innerLoop_char L dev n s errPrev with ⟨_, h2⟩
  rw [h2]
  obtain ⟨m, rfl⟩ : ∃ m, n = m + 2 := ⟨n - 2, by omega⟩
  show 2 ≤ levelStopSpec (errAt L dev s) errPrev (m+1+1)
  rw [levelStopSpec, if_neg hno]
  have := levelStopSpec_pos (fun j => errAt L dev s (j+1)) (errAt L dev s 0) (m+1) (by omega)
  omega

theorem C3_witness :
    (¬ (errAt transModel devC3 iterState0 0 / BIG_FLOAT > 199/200
        ∨ errAt transModel devC3 iterState0 0 = 0))
    ∧ 2 ≤ (innerLoop transModel devC3 2 iterState0 BIG_FLOAT).2.1 := by
  have hno : ¬ (errAt transModel devC3 iterState0 0 / BIG_FLOAT > 199/200
      ∨ errAt transModel devC3 iterState0 0 = 0) := by
    show ¬ ((1:ℚ) / BIG_FLOAT > 199/200 ∨ (1:ℚ) = 0)
    norm_num [BIG_FLOAT]
  exact ⟨hno,
    (C3_no_spd_rejection_amended transModel devC3 iterState0 BIG_FLOAT 2 (le_refl 2) hno).1⟩

theorem finval0 : ((0 : Fin 6)).val = 0 := rfl

theorem finval1 : ((1 : Fin 6)).val = 1 := rfl

theorem finval2 : ((2 : Fin 6)).val = 2 := rfl

theorem finval3 : ((3 : Fin 6)).val = 3 := rfl

theorem finval4 : ((4 : Fin 6)).val = 4 := rfl

theorem finval5 : ((5 : Fin 6)).val = 5 := rfl

theorem ldltSolve_negIdent : ldltSolve negIdentM6 e0V6 = negV6 e0V6 := by
  unfold negIdentM6
  rw [ldltSolve_diag]
  funext i
  rw [if_neg (by norm_num)]
  show e0V6 i / (-1) = negV6 e0V6 i
  unfold negV6
  rw [div_neg, div_one]

theorem iterStep_devC3 (st : IterState) :
    iterStep transModel devC3 st = ⟨addV6 e0V6 st.xi, 0⟩ := by
  have hneg : negV6 (ldltSolve negIdentM6 e0V6) = e0V6 := by
    rw [ldltSolve_negIdent]
    funext i
    simp [negV6]
  show ({ xi := transModel.lieLog (transModel.mul
      (transModel.lieExp (negV6 (ldltSolve negIdentM6 e0V6)))
      (transModel.lieExp st.xi)), var := 0 } : IterState) = _
  rw [hneg]
  rfl

/-- C3 (counterexample).  With a device oracle whose assembled matrix is
the negated identity (not positive definite: the quadratic form at e0 is
-1) and whose error is constantly 1, the Gauss-Newton step is not rejected
and the level does not terminate: two iterations execute (the second stops
via the error ratio test 1/1 > 0.995) and the pose has moved from 0 to 2*e0
— contradicting the claim that a non-positive-definite A rejects the step
and terminates the level. -/
theorem C3_cex_step_applied_despite_indefinite_A :
    sumFin6 (fun i => e0V6 i * mulVec6 negIdentM6 e0V6 i) = -1
    ∧ (innerLoop transModel devC3 2 iterState0 BIG_FLOAT).2.1 = 2
    ∧ (innerLoop transModel devC3 2 iterState0 BIG_FLOAT).1.xi ⟨0, by omega⟩ = 2 := by
  have hquad : sumFin6 (fun i => e0V6 i * mulVec6 negIdentM6 e0V6 i) = -1 := by
    unfold negIdentM6
    rw [mulVec6_diag]
    unfold sumFin6 e0V6
    norm_num [finval0, finval1, finval2, finval3, finval4, finval5]
  have hcond1 : ¬ ((devC3 iterState0.xi iterState0.var).err / BIG_FLOAT > 199/200
      ∨ (devC3 iterState0.xi iterState0.var).err = 0) := by
    show ¬ ((1:ℚ) / BIG_FLOAT > 199/200 ∨ (1:ℚ) = 0)
    norm_num [BIG_FLOAT]
  have hcond2 : (devC3 (iterStep transModel devC3 iterState0).xi
      (iterStep transModel devC3 iterState0).var).err / (devC3 iterState0.xi iterState0.var).err > 199/200
      ∨ (devC3 (iterStep transModel devC3 iterState0).xi
          (iterStep transModel devC3 iterState0).var).err = 0 := by
    left
    show (1:ℚ) / 1 > 199/200
    norm_num
  have hloop : innerLoop transModel devC3 2 iterState0 BIG_FLOAT
      = (iterStep transModel devC3 (iterStep transModel devC3 iterState0), 2, []) := by
    show innerLoop transModel devC3 (1+1) iterState0 BIG_FLOAT = _
    rw [innerLoop, if_neg hcond1]
    show ((innerLoop transModel devC3 (0+1) (iterStep transModel devC3 iterState0)
        (devC3 iterState0.xi iterState0.var).err).1, _, _) = _
    rw [innerLoop, if_pos hcond2]
    rfl
  refine ⟨hquad, by rw [hloop], ?_⟩
  rw [hloop]
  show (iterStep transModel devC3 (iterStep transModel devC3 iterState0)).xi ⟨0, by omega⟩ = 2
  rw [iterStep_devC3, iterStep_devC3]
  show addV6 e0V6 (addV6 e0V6 iterState0.xi) ⟨0, by omega⟩ = 2
  unfold addV6 e0V6 iterState0 zeroV6
  norm_num

theorem varLoopAux_char (step : ℚ → ℚ) (v0 : ℚ) :
    ∀ fuel iters, iters + fuel = 5 → 1 ≤ fuel →
    ((varLoopAux step fuel (step^[iters] v0) iters).1
        = step^[(varLoopAux step fuel (step^[iters] v0) iters).2] v0)
    ∧ iters < (varLoopAux step fuel (step^[iters] v0) iters).2
    ∧ (varLoopAux step fuel (step^[iters] v0) iters).2 ≤ 5
    ∧ (∀ j, iters < j → j < (varLoopAux step fuel (step^[iters] v0) iters).2 →
        1/1000 < |1/(step^[j] v0) - 1/(step^[j-1] v0)|)
    ∧ ((varLoopAux step fuel (step^[iters] v0) iters).2 < 5 →
        |1/(step^[(varLoopAux step fuel (step^[iters] v0) iters).2] v0)
          - 1/(step^[(varLoopAux step fuel (step^[iters] v0) iters).2 - 1] v0)| ≤ 1/1000) := by
  intro fuel
  induction fuel with
  | zero => intro iters _ h1; omega
  | succ f ih =>
      intro iters h5 _
      have hstep : step (step^[iters] v0) = step^[iters+1] v0 :=
        (Function.iterate_succ_apply' step iters v0).symm
      rw [varLoopAux]
      simp only [hstep]
      by_cases hcond : 1/1000 < |1/(step^[iters+1] v0) - 1/(step^[iters] v0)| ∧ iters + 1 < 5
      · rw [if_pos hcond]
        have hf1 : 1 ≤ f := by omega
        have h5f : iters + 1 + f = 5 := by omega
        rcases ih (iters+1) h5f hf1 with ⟨ih1, ih2, ih3, ih4, ih5⟩
        refine ⟨ih1, by omega, ih3, ?_, ih5⟩
        intro j hj1 hj2
        by_cases hje : j = iters + 1
        · subst hje
          simpa using hcond.1
        · exact ih4 j (by omega) hj2
      · rw [if_neg hcond]
        refine ⟨rfl, by omega, by omega, by intro j hj1 hj2; omega, ?_⟩
        intro hlt
        have hB : iters + 1 < 5 := hlt
        have hA : ¬ (1/1000 < |1/(step^[iters+1] v0) - 1/(step^[iters] v0)|) :=
          fun ha => hcond ⟨ha, hB⟩
        simpa using le_of_not_lt hA

theorem tdistVarLoop_char (step : ℚ → ℚ) (v0 : ℚ) :
    ((tdistVarLoop step v0).1 = step^[(tdistVarLoop step v0).2] v0)
    ∧ 1 ≤ (tdistVarLoop step v0).2 ∧ (tdistVarLoop step v0).2 ≤ 5
    ∧ (∀ j, 1 ≤ j → j < (tdistVarLoop step v0).2 →
        1/1000 < |1/(step^[j] v0) - 1/(step^[j-1] v0)|)
    ∧ ((tdistVarLoop step v0).2 < 5 →
        |1/(step^[(tdistVarLoop step v0).2] v0)
          - 1/(step^[(tdistVarLoop step v0).2 - 1] v0)| ≤ 1/1000) := by
  have h := varLoopAux_char step v0 5 0 (by omega) (by omega)
  simpa using h

/-- C5.  In Student-t mode, the scale sigma^2 starts at 0.000625 = 1/1600
per level; the variance loop makes between 1 and 5 passes, each assigning
sigma^2 the mean of the weighted squared residuals (the iterated step), it
keeps running exactly while |1/sigma^2 - 1/sigma^2_prev| > 10^-3 (and stops
as soon as the change is at most 10^-3 or 5 passes were made); within a
level the variance state is carried across inner iterations (the returned
variance is the one threaded through all executed updates), and each new
level restarts the inner loop from VARIANCE_INITIAL. -/
theorem C5_student_t_variance_estimation :
    VARIANCE_INITIAL = 1/1600
    ∧ (∀ (step : ℚ → ℚ) (v0 : ℚ),
        ((tdistVarLoop step v0).1 = step^[(tdistVarLoop step v0).2] v0)
        ∧ 1 ≤ (tdistVarLoop step v0).2 ∧ (tdistVarLoop step v0).2 ≤ 5
        ∧ (∀ j, 1 ≤ j → j < (tdistVarLoop step v0).2 →
            1/1000 < |1/(step^[j] v0) - 1/(step^[j-1] v0)|)
        ∧ ((tdistVarLoop step v0).2 < 5 →
            |1/(step^[(tdistVarLoop step v0).2] v0)
              - 1/(step^[(tdistVarLoop step v0).2 - 1] v0)| ≤ 1/1000))
    ∧ (∀ (G : Type) (L : LieModel G) (dev : Vec6 → ℚ → DevOut) (n : ℕ)
        (s : IterState) (ep : ℚ),
        (innerLoop L dev n s ep).1.var
          = (iterN L dev (innerLoop L dev n s ep).2.1 s).var)
    ∧ (∀ (G : Type) (L : LieModel G) (dev : ℕ → Vec6 → ℚ → DevOut) (maxIter : ℕ)
        (l : ℕ) (ls : List ℕ) (xi : Vec6),
        (runLevels L dev maxIter (l :: ls) xi).1
          = (runLevels L dev maxIter ls
              (innerLoop L (dev l) maxIter ⟨xi, VARIANCE_INITIAL⟩ BIG_FLOAT).1.xi).1) := by
  refine ⟨by norm_num [VARIANCE_INITIAL], tdistVarLoop_char, ?_, ?_⟩
  · intro G L dev n s ep
    rw [(innerLoop_char L dev n s ep).1]
  · intro G L dev maxIter l ls xi
    rfl

theorem C5_witness :
    (tdistVarLoop (fun v => v/2) 1).1
      = (fun v => v/2)^[(tdistVarLoop (fun v => v/2) 1).2] 1 :=
  (C5_student_t_variance_estimation.2.1 (fun v => v/2) 1).1

theorem sumPixels_eq_zero {w h : ℕ} {f : ℕ → ℕ → ℚ} (hf : ∀ u v, f u v = 0) :
    sumPixels w h f = 0 := by
  unfold sumPixels
  exact sumRange_eq_zero (fun v _ => sumRange_eq_zero (fun u _ => hf u v))

theorem downsampleDepth_zero : downsampleDepth zeroImage = zeroImage := by
  funext u v
  simp [downsampleDepth, zeroImage]

theorem pyrDepth_zero (l : ℕ) : pyrDepth zeroImage l = zeroImage := by
  induction l with
  | zero => rfl
  | succ m ih => rw [pyrDepth, ih, downsampleDepth_zero]

theorem pixelCalc_zero_depth (K RKinv : Mat3) (t : Vec3) (pg cg cdx cdy : Image)
    (w h u v : ℕ) :
    pixelCalc K RKinv t pg zeroImage cg cdx cdy w h u v
      = { r := 0, J := zeroV6, valid := false } := by
  simp only [pixelCalc]
  rw [if_neg]
  intro hcv
  exact absurd hcv.2.2.2.2.2 (lt_irrefl 0)

theorem devImages_zero_depth {G : Type} (L : LieModel G) (cfg : Config)
    (pg cg : Image) (level : ℕ) (xi : Vec6) (variance : ℚ) :
    (devImages L cfg pg zeroImage cg level xi variance).err = 0
    ∧ (devImages L cfg pg zeroImage cg level xi variance).A = zeroM6
    ∧ (devImages L cfg pg zeroImage cg level xi variance).b = zeroV6 := by
  refine ⟨?_, ?_, ?_⟩
  · show sumPixels _ _ _ = 0
    apply sumPixels_eq_zero
    intro u v
    simp only [pyrDepth_zero, pixelCalc_zero_depth]
    norm_num
  · funext i j
    show sumPixels _ _ _ = 0
    apply sumPixels_eq_zero
    intro u v
    simp only [pyrDepth_zero, pixelCalc_zero_depth]
    show _ * zeroV6 i * zeroV6 j = 0
    simp [zeroV6]
  · funext i
    show sumPixels _ _ _ = 0
    apply sumPixels_eq_zero
    intro u v
    simp only [pyrDepth_zero, pixelCalc_zero_depth]
    show _ * zeroV6 i * _ = 0
    simp [zeroV6]

theorem iterStep_zero_depth {G : Type} (L : LieModel G) (cfg : Config)
    (pg cg : Image) (level : ℕ) (s : IterState) :
    (iterStep L (fun xi var => devImages L cfg pg zeroImage cg level xi var) s).xi
      = s.xi := by
  rcases devImages_zero_depth L cfg pg cg level s.xi s.var with ⟨_, _, hb⟩
  show L.lieLog (L.mul (L.lieExp (negV6 (ldltSolve
      (devImages L cfg pg zeroImage cg level s.xi s.var).A
      (devImages L cfg pg zeroImage cg level s.xi s.var).b))) (L.lieExp s.xi)) = s.xi
  rw [hb, ldltSolve_bzero, negV6_zero, L.lieExp_zero, L.one_mul, L.lieLog_exp]

theorem innerLoop_zero_depth {G : Type} (L : LieModel G) (cfg : Config)
    (pg cg : Image) (level : ℕ) (n : ℕ) (s : IterState) (ep : ℚ) :
    (innerLoop L (fun xi var => devImages L cfg pg zeroImage cg level xi var) n s ep).1.xi
      = s.xi := by
  cases n with
  | zero => rfl
  | succ m =>
      rw [innerLoop]
      rcases devImages_zero_depth L cfg pg cg level s.xi s.var with ⟨he, _, _⟩
      rw [if_pos (Or.inr he)]
      exact iterStep_zero_depth L cfg pg cg level s

theorem runLevels_zero_depth {G : Type} (L : LieModel G) (cfg : Config)
    (pg cg : Image) (maxIter : ℕ) :
    ∀ (ls : List ℕ) (xi : Vec6),
    (runLevels L (fun level xi2 var => devImages L cfg pg zeroImage cg level xi2 var)
      maxIter ls xi).1 = xi := by
  intro ls
  induction ls with
  | nil => intro xi; rfl
  | cons l ls ih =>
      intro xi
      rw [runLevels]
      show (runLevels L _ maxIter ls (innerLoop L _ maxIter ⟨xi, VARIANCE_INITIAL⟩ BIG_FLOAT).1.xi).1 = xi
      rw [ih, innerLoop_zero_depth L cfg pg cg l maxIter ⟨xi, VARIANCE_INITIAL⟩ BIG_FLOAT]

/-- C6 (amended).  With zero valid pixels at every level (previous frame
depth all zero), each processed level runs one iteration whose system is
A = 0, b = 0, so the solved step is zero, xi is left unchanged, and the
level terminates on e == 0; align still returns a pose, but the returned
value is lieLog(lieExp(previous xi_total) * lieExp(xi)^-1) for the
warm-started inter-frame estimate xi — it equals the previous xi_total only
when that warm start is zero, not in general. -/
theorem C6_degenerate_frame_amended {G : Type} (L : LieModel G) (cfg : Config)
    (pg : Image) (xi xit : Vec6) (g d : Image) :
    (align L cfg ⟨pg, zeroImage, xi, xit⟩ g d).1
      = L.lieLog (L.mul (L.lieExp xit) (L.inv (L.lieExp xi)))
    ∧ (align L cfg ⟨pg, zeroImage, xi, xit⟩ g d).2.xi = xi := by
  have hx : (runLevels L (fun level xi2 var => devImages L cfg pg zeroImage g level xi2 var)
      cfg.maxIterationsPerLevel (levelList cfg.maxLevel cfg.minLevel) xi).1 = xi :=
    runLevels_zero_depth L cfg pg g cfg.maxIterationsPerLevel
      (levelList cfg.maxLevel cfg.minLevel) xi
  constructor
  · show L.lieLog (L.mul (L.lieExp xit) (L.inv (L.lieExp
      (runLevels L (fun level xi2 var => devImages L cfg pg zeroImage g level xi2 var)
        cfg.maxIterationsPerLevel (levelList cfg.maxLevel cfg.minLevel) xi).1))) = _
    rw [hx]
  · show (runLevels L (fun level xi2 var => devImages L cfg pg zeroImage g level xi2 var)
        cfg.maxIterationsPerLevel (levelList cfg.maxLevel cfg.minLevel) xi).1 = xi
    exact hx

/-- C6 (counterexample).  A tracker whose warm-started inter-frame estimate
is the nonzero twist e3 (as after a previous frame with nonzero motion),
whose previous depth is all zero, and whose accumulated pose is 0: align on
an all-zero-depth frame leaves xi unchanged but returns
lieLog(lieExp(0) * lieExp(e3)^-1) = -e3, which is not the previous xi_total
= 0 — the returned value does not equal the previous xi_total bit-exactly. -/
theorem C6_cex_returned_pose_not_previous_total :
    (align transModel cfgTiny ⟨zeroImage, zeroImage, e3V6, zeroV6⟩ zeroImage zeroImage).1
      ≠ (⟨zeroImage, zeroImage, e3V6, zeroV6⟩ : TrackerState).xi_total := by
  have h1 := runLevels_zero_depth transModel cfgTiny zeroImage zeroImage
    cfgTiny.maxIterationsPerLevel (levelList cfgTiny.maxLevel cfgTiny.minLevel) e3V6
  have hret : (align transModel cfgTiny ⟨zeroImage, zeroImage, e3V6, zeroV6⟩
      zeroImage zeroImage).1 = addV6 zeroV6 (negV6 e3V6) := by
    show transModel.lieLog (transModel.mul (transModel.lieExp zeroV6)
      (transModel.inv (transModel.lieExp
        (runLevels transModel
          (fun level xi2 var => devImages transModel cfgTiny zeroImage zeroImage zeroImage level xi2 var)
          cfgTiny.maxIterationsPerLevel (levelList cfgTiny.maxLevel cfgTiny.minLevel) e3V6).1))) = _
    rw [h1]
    rfl
  intro hEq
  rw [hret] at hEq
  have h3 := congrFun hEq ⟨3, by omega⟩
  rw [show (⟨zeroImage, zeroImage, e3V6, zeroV6⟩ : TrackerState).xi_total = zeroV6 from rfl] at h3
  norm_num [addV6, negV6, zeroV6, e3V6] at h3

/-- C7 (counterexample).  Construction succeeds on configurations the claim
calls invalid: a non-Gauss-Newton solvingMethod and a zero width both yield
a normally constructed tracker, with no ConfigurationError anywhere. -/
theorem C7_cex_construction_accepts_invalid_config :
    trackerInit zeroImage zeroImage cfgLM
      = Except.ok ⟨zeroImage, zeroImage, zeroV6, zeroV6⟩
    ∧ cfgLM.solvingMethod ≠ SolvingMethod.GAUSS_NEWTON
    ∧ trackerInit zeroImage zeroImage cfgZeroWidth
      = Except.ok ⟨zeroImage, zeroImage, zeroV6, zeroV6⟩
    ∧ cfgZeroWidth.width = 0 :=
  ⟨rfl, by decide, rfl, rfl⟩

/-- C7 (amended).  The constructor performs no configuration validation at
all: it succeeds for every configuration (there is no ConfigurationError
path), and the stored solvingMethod is never read afterwards — align
behaves identically under any value of the selector. -/
theorem C7_construction_never_fails (g d : Image) (cfg : Config) :
    (trackerInit g d cfg).isOk = true
    ∧ ∀ (G : Type) (L : LieModel G) (s : TrackerState) (gc dc : Image)
        (m : SolvingMethod),
        align L { cfg with solvingMethod := m } s gc dc = align L cfg s gc dc := by
  refine ⟨rfl, ?_⟩
  intro G L s gc dc m
  cases cfg
  rfl

/-- C10.  The depth raster handed to align is stored into the current-frame
slot but never read during that call: the returned pose and the final
inter-frame estimate are identical for any two depth arguments (warping
reads only the previous frame's depth), while the new state's previous-depth
slot becomes the given depth, which is how the argument influences the next
align call. -/
theorem C10_pose_independent_of_current_depth {G : Type} (L : LieModel G)
    (cfg : Config) (s : TrackerState) (g d1 d2 : Image) :
    (align L cfg s g d1).1 = (align L cfg s g d2).1
    ∧ (align L cfg s g d1).2.xi = (align L cfg s g d2).2.xi
    ∧ (align L cfg s g d1).2.xi_total = (align L cfg s g d2).2.xi_total
    ∧ (align L cfg s g d1).2.prevGray = g
    ∧ (align L cfg s g d1).2.prevDepth = d1 :=
  ⟨rfl, rfl, rfl, rfl, rfl⟩

theorem countMalloc_append (t1 t2 : List DevEvent) :
    countMalloc (t1 ++ t2) = countMalloc t1 + countMalloc t2 := by
  simp [countMalloc, List.filter_append]

theorem countFree_append (t1 t2 : List DevEvent) :
    countFree (t1 ++ t2) = countFree t1 + countFree t2 := by
  simp [countFree, List.filter_append]

theorem flatten_replicate_counts (t : List DevEvent) (k : ℕ) :
    countMalloc (List.flatten (List.replicate k t)) = k * countMalloc t
    ∧ countFree (List.flatten (List.replicate k t)) = k * countFree t := by
  induction k with
  | zero => constructor <;> simp [countMalloc, countFree]
  | succ m ih =>
      rw [List.replicate_succ, List.flatten_cons]
      rw [countMalloc_append, countFree_append, ih.1, ih.2]
      constructor <;> ring

theorem calculate_error_trace_counts (c : Bool) (n : ℕ) :
    countMalloc (calculate_error_trace c n) = countFree (calculate_error_trace c n) := by
  cases c <;> rfl

theorem calculate_weights_trace_counts (u c : Bool) (n k : ℕ) :
    countMalloc (calculate_weights_trace u c n k)
      = countFree (calculate_weights_trace u c n k) := by
  cases u
  · rfl
  · cases c
    · show countMalloc (List.flatten (List.replicate k (reduce_array_GPU_trace n)))
        = countFree (List.flatten (List.replicate k (reduce_array_GPU_trace n)))
      rcases flatten_replicate_counts (reduce_array_GPU_trace n) k with ⟨h1, h2⟩
      rw [h1, h2]
      have hrt : countMalloc (reduce_array_GPU_trace n) = countFree (reduce_array_GPU_trace n) := rfl
      rw [hrt]
    · rfl

theorem devImages_trace_balanced {G : Type} (L : LieModel G) (cfg : Config)
    (pg pd cg : Image) (level : ℕ) (xi : Vec6) (variance : ℚ) :
    countMalloc (devImages L cfg pg pd cg level xi variance).trace
      = countFree (devImages L cfg pg pd cg level xi variance).trace := by
  show countMalloc (calculate_error_trace cfg.cublas _ ++ calculate_weights_trace _ _ _ _)
    = countFree (calculate_error_trace cfg.cublas _ ++ calculate_weights_trace _ _ _ _)
  rw [countMalloc_append, countFree_append,
    calculate_error_trace_counts, calculate_weights_trace_counts]

theorem devImages_trace_has_malloc {G : Type} (L : LieModel G) (cfg : Config)
    (hcu : cfg.cublas = false) (pg pd cg : Image) (level : ℕ) (xi : Vec6)
    (variance : ℚ) :
    1 ≤ countMalloc (devImages L cfg pg pd cg level xi variance).trace := by
  show 1 ≤ countMalloc (calculate_error_trace cfg.cublas _ ++ calculate_weights_trace _ _ _ _)
  rw [countMalloc_append, hcu]
  have h2 : countMalloc (calculate_error_trace false
      (cfg.width / 2^level * (cfg.height / 2^level))) = 2 := rfl
  omega

theorem innerLoop_trace_balanced {G : Type} (L : LieModel G)
    (dev : Vec6 → ℚ → DevOut)
    (hdev : ∀ xi var, countMalloc (dev xi var).trace = countFree (dev xi var).trace) :
    ∀ (n : ℕ) (s : IterState) (ep : ℚ),
    countMalloc (innerLoop L dev n s ep).2.2 = countFree (innerLoop L dev n s ep).2.2 := by
  intro n
  induction n with
  | zero => intro s ep; rfl
  | succ m ih =>
      intro s ep
      rw [innerLoop]
      by_cases hc : (dev s.xi s.var).err / ep > 199/200 ∨ (dev s.xi s.var).err = 0
      · rw [if_pos hc]
        exact hdev s.xi s.var
      · rw [if_neg hc]
        show countMalloc ((dev s.xi s.var).trace ++ _) = countFree ((dev s.xi s.var).trace ++ _)
        rw [countMalloc_append, countFree_append, hdev s.xi s.var,
          ih (iterStep L dev s) (dev s.xi s.var).err]

theorem innerLoop_trace_has_malloc {G : Type} (L : LieModel G)
    (dev : Vec6 → ℚ → DevOut)
    (hdev : ∀ xi var, 1 ≤ countMalloc (dev xi var).trace)
    (m : ℕ) (s : IterState) (ep : ℚ) :
    1 ≤ countMalloc (innerLoop L dev (m+1) s ep).2.2 := by
  rw [innerLoop]
  by_cases hc : (dev s.xi s.var).err / ep > 199/200 ∨ (dev s.xi s.var).err = 0
  · rw [if_pos hc]
    exact hdev s.xi s.var
  · rw [if_neg hc]
    show 1 ≤ countMalloc ((dev s.xi s.var).trace ++ _)
    rw [countMalloc_append]
    have := hdev s.xi s.var
    omega

theorem runLevels_trace_balanced {G : Type} (L : LieModel G)
    (dev : ℕ → Vec6 → ℚ → DevOut)
    (hdev : ∀ l xi var, countMalloc (dev l xi var).trace = countFree (dev l xi var).trace)
    (maxIter : ℕ) :
    ∀ (ls : List ℕ) (xi : Vec6),
    countMalloc (runLevels L dev maxIter ls xi).2
      = countFree (runLevels L dev maxIter ls xi).2 := by
  intro ls
  induction ls with
  | nil => intro xi; rfl
  | cons l ls ih =>
      intro xi
      rw [runLevels]
      show countMalloc ((innerLoop L (dev l) maxIter ⟨xi, VARIANCE_INITIAL⟩ BIG_FLOAT).2.2 ++ _)
        = countFree ((innerLoop L (dev l) maxIter ⟨xi, VARIANCE_INITIAL⟩ BIG_FLOAT).2.2 ++ _)
      rw [countMalloc_append, countFree_append,
        innerLoop_trace_balanced L (dev l) (hdev l) maxIter ⟨xi, VARIANCE_INITIAL⟩ BIG_FLOAT,
        ih _]

theorem runLevels_trace_has_malloc {G : Type} (L : LieModel G)
    (dev : ℕ → Vec6 → ℚ → DevOut)
    (hdev : ∀ l xi var, 1 ≤ countMalloc (dev l xi var).trace)
    (maxIter : ℕ) (hmi : 1 ≤ maxIter) (l : ℕ) (ls : List ℕ) (xi : Vec6) :
    1 ≤ countMalloc (runLevels L dev maxIter (l :: ls) xi).2 := by
  rw [runLevels]
  show 1 ≤ countMalloc ((innerLoop L (dev l) maxIter ⟨xi, VARIANCE_INITIAL⟩ BIG_FLOAT).2.2 ++ _)
  rw [countMalloc_append]
  obtain ⟨m, rfl⟩ : ∃ m, maxIter = m + 1 := ⟨maxIter - 1, by omega⟩
  have := innerLoop_trace_has_malloc L (dev l) (hdev l) m ⟨xi, VARIANCE_INITIAL⟩ BIG_FLOAT
  omega

theorem countFree_flatten_malloc_blocks (g : ℕ → ℕ) :
    ∀ ls : List ℕ,
    countFree (List.flatten (ls.map (fun l => List.replicate 8 (DevEvent.malloc (g l))))) = 0 := by
  intro ls
  induction ls with
  | nil => rfl
  | cons l ls ih =>
      rw [List.map_cons, List.flatten_cons, countFree_append, ih]
      rfl

/-- C8 (amended).  The persistent device buffers are allocated at
construction (and the construction trace contains no frees: they live until
destruction); however, during align the hand-rolled (non-cuBLAS) reduction
path allocates temporary buffers: the align trace contains at least one
cudaMalloc whenever at least one iteration runs on at least one level, and
every such temporary is freed within the call (malloc and free counts
match). -/
theorem C8_construction_allocation_and_align_temporaries {G : Type}
    (L : LieModel G) (cfg : Config) (s : TrackerState) (g : Image)
    (hcu : cfg.cublas = false) (hmi : 1 ≤ cfg.maxIterationsPerLevel)
    (hlv : cfg.minLevel ≤ cfg.maxLevel) :
    countMalloc (alignTrace L cfg s g) = countFree (alignTrace L cfg s g)
    ∧ 1 ≤ countMalloc (alignTrace L cfg s g)
    ∧ countFree (allocateGPUMemoryTrace cfg) = 0 := by
  have hbal : countMalloc (alignTrace L cfg s g) = countFree (alignTrace L cfg s g) :=
    runLevels_trace_balanced L _
      (fun l xi var => devImages_trace_balanced L cfg s.prevGray s.prevDepth g l xi var)
      cfg.maxIterationsPerLevel (levelList cfg.maxLevel cfg.minLevel) s.xi
  have hne : levelList cfg.maxLevel cfg.minLevel ≠ [] := by
    intro hnil
    have hlen := levelList_length cfg.maxLevel cfg.minLevel
    rw [hnil] at hlen
    simp only [List.length_nil] at hlen
    omega
  obtain ⟨l, ls, hls⟩ := List.exists_cons_of_ne_nil hne
  have hpos : 1 ≤ countMalloc (alignTrace L cfg s g) := by
    show 1 ≤ countMalloc (runLevels L _ cfg.maxIterationsPerLevel
      (levelList cfg.maxLevel cfg.minLevel) s.xi).2
    rw [hls]
    exact runLevels_trace_has_malloc L _
      (fun l2 xi var => devImages_trace_has_malloc L cfg hcu s.prevGray s.prevDepth g l2 xi var)
      cfg.maxIterationsPerLevel hmi l ls s.xi
  refine ⟨hbal, hpos, ?_⟩
  show countFree (_ ++ _ ++ _) = 0
  rw [countFree_append, countFree_append,
    countFree_flatten_malloc_blocks (fun l2 => (cfg.width / 2^l2) * (cfg.height / 2^l2) * 4),
    hcu]
  rfl

theorem C8_witness :
    (cfgTiny.cublas = false ∧ 1 ≤ cfgTiny.maxIterationsPerLevel
      ∧ cfgTiny.minLevel ≤ cfgTiny.maxLevel)
    ∧ countMalloc (alignTrace transModel cfgTiny ⟨zeroImage, zeroImage, zeroV6, zeroV6⟩ zeroImage)
      = countFree (alignTrace transModel cfgTiny ⟨zeroImage, zeroImage, zeroV6, zeroV6⟩ zeroImage) :=
  ⟨⟨rfl, le_refl 1, Nat.le_refl 0⟩,
   (C8_construction_allocation_and_align_temporaries transModel cfgTiny
     ⟨zeroImage, zeroImage, zeroV6, zeroV6⟩ zeroImage rfl (le_refl 1) (Nat.le_refl 0)).1⟩

/-- C8 (counterexample).  In the hand-rolled (non-cuBLAS) build, an align
call does allocate device memory (its trace contains a cudaMalloc from the
calculate_error reduction), contradicting the claim that no device
allocation occurs during align; moreover the constructor's pyramid buffers
are sized per level, not all for the level-0 resolution: for a 2x2 image
with maxLevel = 1 a 4-byte level-1 buffer is allocated, different from the
16-byte level-0 size. -/
theorem C8_cex_align_allocates :
    1 ≤ countMalloc (alignTrace transModel cfgTiny ⟨zeroImage, zeroImage, zeroV6, zeroV6⟩ zeroImage)
    ∧ DevEvent.malloc ((2/2^1) * (2/2^1) * 4) ∈ allocateGPUMemoryTrace cfgPyr
    ∧ (2/2^1) * (2/2^1) * 4 ≠ cfgPyr.width * cfgPyr.height * 4 := by
  refine ⟨?_, by decide, by decide⟩
  show 1 ≤ countMalloc (runLevels transModel _ cfgTiny.maxIterationsPerLevel
    (levelList cfgTiny.maxLevel cfgTiny.minLevel) zeroV6).2
  have hls : levelList cfgTiny.maxLevel cfgTiny.minLevel = [0] := rfl
  rw [hls]
  exact runLevels_trace_has_malloc transModel _
    (fun l xi var => devImages_trace_has_malloc transModel cfgTiny rfl
      zeroImage zeroImage zeroImage l xi var)
    cfgTiny.maxIterationsPerLevel (le_refl 1) 0 [] zeroV6

end DVO
